import Mathlib

/-!
Verification of the popiano repository's specification against its source.

The repository is a planning document whose only executable fragments are
three TypeScript snippets embedded in `src/next.config.js`: the `MIDIHandler`
class (Phase 3), the `SheetRenderer` class (Phase 3), and the Zustand
`useGameStore` store (Phase 4).  Those fragments are embedded below from the
source.  The real-time matching core (Event Normalizer, Expected-Sequence
Model, Matcher, Feedback Aggregator, Session Controller) described by the
specification has no implementation in the repository, so it is modelled
from the specification's own words; each such definition says so in its
doc comment.
-/

namespace Popiano

/-! ## Data model (spec §3) -/

/-- Modelled from the spec: kind of a note event, `{on, off}` (§3 NoteEvent);
no implementation exists in the repository. -/
inductive EventKind where
  | on : EventKind
  | off : EventKind
deriving DecidableEq, Repr

/-- Modelled from the spec: a canonical timestamped note event
`{pitch, velocity, kind, timestamp, source}` (§3 NoteEvent); no
implementation exists in the repository.  Times are integer milliseconds
relative to session start. -/
structure NoteEvent where
  pitch : Nat
  velocity : Nat
  kind : EventKind
  timestamp : Int
  source : Nat
deriving DecidableEq, Repr

/-- Modelled from the spec: an expected note `{pitch, expected_time}` with a
tolerance window derived from the configuration (§3 ExpectedNote); no
implementation exists in the repository. -/
structure ExpectedNote where
  pitch : Nat
  expectedTime : Int
deriving DecidableEq, Repr

/-- Modelled from the spec: session configuration `{ε_early, ε_late}` (§6),
both non-negative durations in milliseconds. -/
structure MatchConfig where
  epsEarly : Nat
  epsLate : Nat
deriving DecidableEq, Repr

/-- Modelled from the spec: lower end of a note's tolerance window,
`expected_time − ε_early` (§3). -/
def windowLo (cfg : MatchConfig) (n : ExpectedNote) : Int :=
  n.expectedTime - cfg.epsEarly

/-- Modelled from the spec: upper end of a note's tolerance window,
`expected_time + ε_late` (§3). -/
def windowHi (cfg : MatchConfig) (n : ExpectedNote) : Int :=
  n.expectedTime + cfg.epsLate

/-- Modelled from the spec: a match verdict, one of
`Hit(expected_note_ref, timing_delta)`, `Miss(expected_note_ref)`,
`Extra(note_event)` (§3 MatchVerdict); expected notes are referenced by
their index in the ExpectedSequence. -/
inductive Verdict where
  | hit : Nat → Int → Verdict
  | miss : Nat → Verdict
  | extra : NoteEvent → Verdict
deriving DecidableEq, Repr

/-- Modelled from the spec: one entry of the Matcher's view of the
ExpectedSequence — an ExpectedNote together with its consumed flag
(§4.3 "mark it consumed"). -/
structure Slot where
  note : ExpectedNote
  consumed : Bool
deriving DecidableEq, Repr

/-! ## Matcher (spec §4.3) — modelled from the spec, no implementation in
the repository. -/

/-- Modelled from the spec: whether a slot qualifies as a match candidate
for an incoming `on` event of pitch `p` at timestamp `ts`: it must be
unconsumed, of matching pitch, and its tolerance window must contain `ts`
(§4.3). -/
def qualifies (cfg : MatchConfig) (p : Nat) (ts : Int) (s : Slot) : Bool :=
  !s.consumed && s.note.pitch == p
    && decide (windowLo cfg s.note ≤ ts) && decide (ts ≤ windowHi cfg s.note)

/-- Modelled from the spec: search the sequence for the first qualifying
candidate in expected order (FIFO tie-break, §4.3); returns its index and
note. -/
def findMatch (cfg : MatchConfig) (p : Nat) (ts : Int) :
    List Slot → Option (Nat × ExpectedNote)
  | [] => none
  | s :: rest =>
    if qualifies cfg p ts s then some (0, s.note)
    else (findMatch cfg p ts rest).map (fun q => (q.1 + 1, q.2))

/-- Modelled from the spec: mark the slot at index `i` consumed (§4.3). -/
def markConsumed : List Slot → Nat → List Slot
  | [], _ => []
  | s :: rest, 0 => { s with consumed := true } :: rest
  | s :: rest, i + 1 => s :: markConsumed rest i

/-- Modelled from the spec: resolve an incoming `on` NoteEvent (§4.3).  If a
qualifying candidate is found, it is consumed and a
`Hit(ref, event.timestamp − expected_time)` is emitted; otherwise the event
is resolved as `Extra` and the state is unchanged. -/
def processOn (cfg : MatchConfig) (slots : List Slot) (e : NoteEvent) :
    List Slot × List Verdict :=
  match findMatch cfg e.pitch e.timestamp slots with
  | some q => (markConsumed slots q.1, [Verdict.hit q.1 (e.timestamp - q.2.expectedTime)])
  | none => (slots, [Verdict.extra e])

/-- Modelled from the spec: the periodic sweep (§4.3), walking the sequence
from index `i`: every slot that is still unconsumed and whose tolerance
window has fully elapsed (`now > expected_time + ε_late`) is marked
consumed and emits a `Miss`. -/
def sweepFrom (cfg : MatchConfig) (now : Int) (i : Nat) :
    List Slot → List Slot × List Verdict
  | [] => ([], [])
  | s :: rest =>
    let r := sweepFrom cfg now (i + 1) rest
    if !s.consumed && decide (windowHi cfg s.note < now) then
      ({ s with consumed := true } :: r.1, Verdict.miss i :: r.2)
    else
      (s :: r.1, r.2)

/-- Modelled from the spec: the sweep over the whole sequence (§4.3). -/
def sweep (cfg : MatchConfig) (now : Int) (slots : List Slot) :
    List Slot × List Verdict :=
  sweepFrom cfg now 0 slots

/-- Modelled from the spec: the two sources of Matcher work, serialized (§5):
an incoming NoteEvent or a sweep tick of the session clock. -/
inductive MatcherInput where
  | ev : NoteEvent → MatcherInput
  | tick : Int → MatcherInput
deriving DecidableEq, Repr

/-- Modelled from the spec: one serialized Matcher step (§4.3, §5).  `on`
events are matched, `off` events are consumed without error and produce no
verdict, ticks run the sweep. -/
def matcherStep (cfg : MatchConfig) (slots : List Slot) :
    MatcherInput → List Slot × List Verdict
  | MatcherInput.ev e =>
    match e.kind with
    | EventKind.on => processOn cfg slots e
    | EventKind.off => (slots, [])
  | MatcherInput.tick now => sweep cfg now slots

/-- Modelled from the spec: run the Matcher over a whole session's stream of
events and sweep ticks, accumulating the emitted verdicts in order. -/
def matcherRun (cfg : MatchConfig) (slots : List Slot) :
    List MatcherInput → List Slot × List Verdict
  | [] => (slots, [])
  | inp :: rest =>
    let r := matcherStep cfg slots inp
    let r' := matcherRun cfg r.1 rest
    (r'.1, r.2 ++ r'.2)

/-- Number of `Hit` verdicts in `vs` that reference expected note `i`. -/
def hitCount (i : Nat) (vs : List Verdict) : Nat :=
  vs.countP (fun v => match v with | Verdict.hit j _ => j == i | _ => false)

/-- Number of `Miss` verdicts in `vs` that reference expected note `i`. -/
def missCount (i : Nat) (vs : List Verdict) : Nat :=
  vs.countP (fun v => match v with | Verdict.miss j => j == i | _ => false)

/-- `1` if the slot at index `i` is consumed, `0` if it is unconsumed or
absent. -/
def flag (slots : List Slot) (i : Nat) : Nat :=
  match slots[i]? with
  | some s => if s.consumed then 1 else 0
  | none => 0

/-- Number of verdicts in `vs` (Hit or Miss) that reference expected note
`i`; Extra verdicts reference no expected note. -/
def refCount (i : Nat) (vs : List Verdict) : Nat :=
  hitCount i vs + missCount i vs

/-- Modelled from the spec: the Matcher's initial view of a freshly built
ExpectedSequence (§4.2 build, §4.3) — every expected note unconsumed. -/
def buildSlots (seq : List ExpectedNote) : List Slot :=
  seq.map (fun n => ⟨n, false⟩)

/-! ## Feedback Aggregator (spec §4.4) — modelled from the spec, no
implementation in the repository. -/

/-- Modelled from the spec: the SessionState counters updated per verdict
(§3 SessionState, §4.4): accumulated hits, misses and extras. -/
structure Counters where
  hits : Nat
  misses : Nat
  extras : Nat
deriving DecidableEq, Repr

/-- Modelled from the spec: consume one verdict and update the counters
(§4.4, amortized O(1) per verdict). -/
def applyVerdict (c : Counters) : Verdict → Counters
  | Verdict.hit _ _ => { c with hits := c.hits + 1 }
  | Verdict.miss _ => { c with misses := c.misses + 1 }
  | Verdict.extra _ => { c with extras := c.extras + 1 }

/-- Modelled from the spec: the counters after consuming a prefix of the
verdict stream in order (§4.4). -/
def countersOf (vs : List Verdict) : Counters :=
  vs.foldl applyVerdict ⟨0, 0, 0⟩

/-- Modelled from the spec: running accuracy
`hits / (hits + misses + extras)` (§4.4), as an exact rational. -/
def accuracy (c : Counters) : ℚ :=
  (c.hits : ℚ) / ((c.hits : ℚ) + (c.misses : ℚ) + (c.extras : ℚ))

/-! ## Session Controller (spec §4.5) — modelled from the spec, no
implementation in the repository. -/

/-- Modelled from the spec: session status `{idle, running, paused,
finished}` (§3 SessionState). -/
inductive Status where
  | idle : Status
  | running : Status
  | paused : Status
  | finished : Status
deriving DecidableEq, Repr

/-- Modelled from the spec: error kinds surfaced by the Session Controller
(§7); `invalidOp` stands for a command the state machine of §4.5 gives no
transition for (the spec leaves those combinations unspecified beyond
rejecting them). -/
inductive SessionError where
  | notReady : SessionError
  | sessionAlreadyFinished : SessionError
  | invalidOp : SessionError
deriving DecidableEq, Repr

/-- Modelled from the spec: the triggers of §4.5 — explicit start, pause,
resume, stop requests, device disconnection (pauses a running session,
§4.1/§4.5), and the cursor reaching the end of the ExpectedSequence with
all notes verdicted (natural end). -/
inductive SessionCmd where
  | start : SessionCmd
  | pause : SessionCmd
  | resume : SessionCmd
  | stop : SessionCmd
  | deviceDisconnected : SessionCmd
  | naturalEnd : SessionCmd
deriving DecidableEq, Repr

/-- Modelled from the spec: the Session Controller's state machine
`idle → running → {paused ↔ running} → finished` (§4.5).  `hasSeq` records
whether a built ExpectedSequence exists; `idle→running` fails with
`NotReady` without one.  Any command in `finished` is rejected with
`SessionAlreadyFinished` (§7); unspecified combinations are rejected
without changing the status. -/
def sessionStep (hasSeq : Bool) : Status → SessionCmd → Except SessionError Status
  | Status.idle, SessionCmd.start =>
    if hasSeq then Except.ok Status.running else Except.error SessionError.notReady
  | Status.running, SessionCmd.pause => Except.ok Status.paused
  | Status.running, SessionCmd.deviceDisconnected => Except.ok Status.paused
  | Status.paused, SessionCmd.resume => Except.ok Status.running
  | Status.running, SessionCmd.stop => Except.ok Status.finished
  | Status.paused, SessionCmd.stop => Except.ok Status.finished
  | Status.running, SessionCmd.naturalEnd => Except.ok Status.finished
  | Status.paused, SessionCmd.naturalEnd => Except.ok Status.finished
  | Status.finished, _ => Except.error SessionError.sessionAlreadyFinished
  | _, _ => Except.error SessionError.invalidOp

/-! ## Event Normalizer (spec §4.1, §9) — modelled from the spec, no
implementation in the repository. -/

/-- Modelled from the spec: a raw timestamped device message (§4.1, §6): a
MIDI-style status byte, two data bytes, and the wall-clock time of
receipt. -/
structure RawMessage where
  status : Nat
  data1 : Nat
  data2 : Nat
  receiptTime : Int
deriving DecidableEq, Repr

/-- Modelled from the spec (§9): the Normalizer as a pure function from raw
message to `Option NoteEvent`.  A status byte with high nibble 9 is a
recognized note-on and one with high nibble 8 a recognized note-off; the
emitted timestamp is the wall-clock time of receipt (§4.1 re-basing).
Every other message (control change, clock, sysex, …) yields `none`. -/
def normalize (src : Nat) (m : RawMessage) : Option NoteEvent :=
  if m.status / 16 == 9 then
    some ⟨m.data1, m.data2, EventKind.on, m.receiptTime, src⟩
  else if m.status / 16 == 8 then
    some ⟨m.data1, m.data2, EventKind.off, m.receiptTime, src⟩
  else
    none

/-- Modelled from the spec: the Normalizer's output stream over a list of
raw messages — a NoteEvent for each recognized message, unrecognized ones
dropped silently (§4.1). -/
def normalizeStream (src : Nat) (ms : List RawMessage) : List NoteEvent :=
  ms.filterMap (normalize src)

/-! ## Embedded source code

Everything below is embedded from the TypeScript fragments in
`src/next.config.js` (the only executable code in the repository). -/

/-- The handler function a MIDI input's `onmidimessage` field can be set
to.  The source's `MIDIHandler` has a single handler,
`handleMIDIMessage`. -/
inductive HandlerRef where
  | handleMIDIMessage : HandlerRef
deriving DecidableEq, Repr

/-- A WebMIDI input port: an identifier and its `onmidimessage` field,
initially unset. -/
structure MIDIInput where
  id : Nat
  onmidimessage : Option HandlerRef
deriving DecidableEq, Repr

/-- A WebMIDI `MIDIAccess` object: its list of input ports. -/
structure MIDIAccess where
  inputs : List MIDIInput
deriving DecidableEq, Repr

namespace MIDIHandler

/-- The names of the methods of `class MIDIHandler` in
`src/next.config.js` lines 126–144, in source order. -/
def methodNames : List String :=
  ["initialize", "setupInputs", "handleMIDIMessage"]

/-- Embedded from `MIDIHandler.handleMIDIMessage` (src/next.config.js
lines 141–143): its body is only the comment `// Handle MIDI input here`,
so it does nothing and returns nothing. -/
def handleMIDIMessage (_message : RawMessage) : Unit := ()

/-- Embedded from `MIDIHandler.setupInputs` (src/next.config.js lines
133–137): for each input of `midi`, set `input.onmidimessage` to
`this.handleMIDIMessage`. -/
def setupInputs (midi : MIDIAccess) : MIDIAccess :=
  { inputs := midi.inputs.map
      (fun i => { i with onmidimessage := some HandlerRef.handleMIDIMessage }) }

/-- Embedded from `MIDIHandler.initialize` (src/next.config.js lines
127–132): if `navigator.requestMIDIAccess` is absent, throw
`Error('WebMIDI not supported')`; otherwise obtain the MIDIAccess and call
`this.setupInputs` on it.  The browser's `navigator.requestMIDIAccess` is
modelled as `Option MIDIAccess` (absent, or present and yielding the
access object); the thrown error as `Except.error` of its message.  The
source method is named `initialize`, which is a Lean keyword, hence the
suffix. -/
def initializeHandler (nav : Option MIDIAccess) : Except String MIDIAccess :=
  match nav with
  | none => Except.error "WebMIDI not supported"
  | some midi => Except.ok (setupInputs midi)

end MIDIHandler

namespace SheetRenderer

/-- The names of the methods of `class SheetRenderer` in
`src/next.config.js` lines 149–159, in source order (the constructor
included). -/
def methodNames : List String :=
  ["constructor", "renderSheet"]

/-- Embedded from `SheetRenderer.renderSheet` (src/next.config.js lines
156–158): its body is only the comment `// Render sheet music`, so it does
nothing and returns nothing. -/
def renderSheet (_notes : List ExpectedNote) : Unit := ()

end SheetRenderer

/-- Embedded from the Zustand `GameState` of `useGameStore`
(src/next.config.js lines 166–180): `{currentNote, score, isPlaying}`,
polymorphic in the source's unspecified `Note` type; `currentNote` is
nullable (initialized to `null`). -/
structure GameState (Note : Type) where
  currentNote : Option Note
  score : Nat
  isPlaying : Bool
deriving DecidableEq, Repr

/-- Embedded from `useGameStore`'s initial state (src/next.config.js lines
175–177): `currentNote: null, score: 0, isPlaying: false`. -/
def initialGameState (Note : Type) : GameState Note :=
  ⟨none, 0, false⟩

/-- Embedded from the `setNote` action (src/next.config.js line 178):
`set({ currentNote: note })`. -/
def setNote {Note : Type} (note : Note) (s : GameState Note) : GameState Note :=
  { s with currentNote := some note }

/-- Embedded from the `incrementScore` action (src/next.config.js line
179): `set((state) => ({ score: state.score + 1 }))`. -/
def incrementScore {Note : Type} (s : GameState Note) : GameState Note :=
  { s with score := s.score + 1 }

/-! ## Theorems -/

/-! ### Helper lemmas about the Matcher -/

/-- Helper: `findMatch` comes back empty exactly when no slot qualifies. -/
lemma findMatch_eq_none (cfg : MatchConfig) (p : Nat) (ts : Int) :
    ∀ l : List Slot,
      findMatch cfg p ts l = none ↔ ∀ s ∈ l, qualifies cfg p ts s = false := by
  intro l
  induction l with
  | nil => simp [findMatch]
  | cons s rest ih =>
    cases hq : qualifies cfg p ts s with
    | true => simp [findMatch, hq]
    | false => simp [findMatch, hq, Option.map_eq_none', ih]

/-- Helper: when `findMatch` returns `(j, n)`, index `j` holds an
unconsumed qualifying slot carrying note `n`, and every earlier index
holds a non-qualifying slot. -/
lemma findMatch_some (cfg : MatchConfig) (p : Nat) (ts : Int) :
    ∀ (l : List Slot) (j : Nat) (n : ExpectedNote),
      findMatch cfg p ts l = some (j, n) →
      ∃ s, l[j]? = some s ∧ s.note = n ∧ qualifies cfg p ts s = true ∧
        ∀ k, k < j → ∀ s', l[k]? = some s' → qualifies cfg p ts s' = false := by
  intro l
  induction l with
  | nil => intro j n h; simp [findMatch] at h
  | cons s rest ih =>
    intro j n h
    cases hq : qualifies cfg p ts s with
    | true =>
      rw [findMatch, if_pos hq] at h
      obtain ⟨rfl, rfl⟩ : j = 0 ∧ s.note = n := by
        constructor <;> (cases h; rfl)
      exact ⟨s, by simp, rfl, hq, fun k hk => by omega⟩
    | false =>
      rw [findMatch, if_neg (by simp [hq])] at h
      obtain ⟨q, hrest, hpair⟩ := Option.map_eq_some'.mp h
      obtain ⟨j', n'⟩ := q
      injection hpair with h1 h2
      subst h1
      subst h2
      obtain ⟨t, hjt, hnote, hqt, hmin⟩ := ih j' n' hrest
      refine ⟨t, by simpa using hjt, hnote, hqt, ?_⟩
      intro k hk s' hks'
      cases k with
      | zero =>
        rw [List.getElem?_cons_zero] at hks'
        cases hks'
        exact hq
      | succ k =>
        rw [List.getElem?_cons_succ] at hks'
        exact hmin k (by omega) s' hks'

/-- Helper: the effect of `markConsumed` on each index. -/
lemma markConsumed_getElem? :
    ∀ (l : List Slot) (j i : Nat),
      (markConsumed l j)[i]? =
        if i = j then (l[i]?).map (fun s => { s with consumed := true })
        else l[i]? := by
  intro l
  induction l with
  | nil => intro j i; simp [markConsumed]
  | cons s rest ih =>
    intro j i
    cases j with
    | zero =>
      cases i with
      | zero => simp [markConsumed]
      | succ i => simp [markConsumed]
    | succ j =>
      cases i with
      | zero => simp [markConsumed]
      | succ i => simpa [markConsumed] using ih j i

/-- Helper: `flag` at the head of a slot list. -/
lemma flag_cons_zero (s : Slot) (l : List Slot) :
    flag (s :: l) 0 = if s.consumed then 1 else 0 := by
  simp [flag]

/-- Helper: `flag` at a successor index skips the head. -/
lemma flag_cons_succ (s : Slot) (l : List Slot) (i : Nat) :
    flag (s :: l) (i + 1) = flag l i := by
  simp [flag]

/-- Helper: a consumed flag is 0 or 1. -/
lemma flag_le_one (l : List Slot) (i : Nat) : flag l i ≤ 1 := by
  unfold flag
  cases h : l[i]? with
  | none => simp
  | some s => by_cases hc : s.consumed <;> simp [hc]

/-- Helper: every slot of a freshly built sequence is unconsumed. -/
lemma flag_buildSlots (seq : List ExpectedNote) (i : Nat) :
    flag (buildSlots seq) i = 0 := by
  unfold flag buildSlots
  rw [List.getElem?_map]
  rcases seq[i]? with _ | n <;> rfl

/-- Helper: marking index `j` consumed raises its flag to 1. -/
lemma flag_markConsumed_self (l : List Slot) (j : Nat) (s : Slot)
    (h : l[j]? = some s) : flag (markConsumed l j) j = 1 := by
  unfold flag
  rw [markConsumed_getElem?, if_pos rfl, h]
  rfl

/-- Helper: marking index `j` consumed leaves every other flag alone. -/
lemma flag_markConsumed_ne (l : List Slot) (j i : Nat) (h : i ≠ j) :
    flag (markConsumed l j) i = flag l i := by
  unfold flag
  rw [markConsumed_getElem?, if_neg h]

/-- Helper: reference counts add over concatenated verdict lists. -/
lemma refCount_append (i : Nat) (vs ws : List Verdict) :
    refCount i (vs ++ ws) = refCount i vs + refCount i ws := by
  simp only [refCount, hitCount, missCount, List.countP_append]
  omega

/-- Helper: a lone Hit for note `j` is a reference to `j` only. -/
lemma refCount_hit (i j : Nat) (d : Int) :
    refCount i [Verdict.hit j d] = if j = i then 1 else 0 := by
  simp only [refCount, hitCount, missCount, List.countP_cons, List.countP_nil]
  by_cases h : j = i <;> simp [h]

/-- Helper: an Extra verdict references no expected note. -/
lemma refCount_extra (i : Nat) (e : NoteEvent) :
    refCount i [Verdict.extra e] = 0 := by
  simp [refCount, hitCount, missCount, List.countP_cons]

/-- Helper: reference count of the empty verdict list. -/
lemma refCount_nil (i : Nat) : refCount i [] = 0 := rfl

/-- Helper: every verdict the sweep emits while scanning from index `i0`
is a Miss of some index at least `i0`. -/
lemma sweepFrom_mem (cfg : MatchConfig) (now : Int) :
    ∀ (l : List Slot) (i0 : Nat) (v : Verdict),
      v ∈ (sweepFrom cfg now i0 l).2 → ∃ j, v = Verdict.miss j ∧ i0 ≤ j := by
  intro l
  induction l with
  | nil => intro i0 v hv; simp [sweepFrom] at hv
  | cons s rest ih =>
    intro i0 v hv
    simp only [sweepFrom] at hv
    split at hv
    · rcases List.mem_cons.mp hv with h | h
      · exact ⟨i0, h, Nat.le_refl i0⟩
      · obtain ⟨j, hj, hij⟩ := ih (i0 + 1) v h
        exact ⟨j, hj, by omega⟩
    · obtain ⟨j, hj, hij⟩ := ih (i0 + 1) v hv
      exact ⟨j, hj, by omega⟩

/-- Helper: verdicts that are all Misses of indices at least `i0` never
reference an index below `i0`. -/
lemma refCount_eq_zero_of_lt (vs : List Verdict) (i0 m : Nat)
    (hall : ∀ v ∈ vs, ∃ j, v = Verdict.miss j ∧ i0 ≤ j) (hm : m < i0) :
    refCount m vs = 0 := by
  simp only [refCount, hitCount, missCount]
  have h1 : vs.countP (fun v => match v with | Verdict.hit j _ => j == m | _ => false) = 0 := by
    rw [List.countP_eq_zero]
    intro v hv
    obtain ⟨j, rfl, _⟩ := hall v hv
    simp
  have h2 : vs.countP (fun v => match v with | Verdict.miss j => j == m | _ => false) = 0 := by
    rw [List.countP_eq_zero]
    intro v hv
    obtain ⟨j, rfl, hij⟩ := hall v hv
    simp only [beq_iff_eq]
    omega
  omega

/-- Helper: prepending a Miss for note `j` adds one reference to `j`. -/
lemma refCount_cons_miss (i j : Nat) (vs : List Verdict) :
    refCount i (Verdict.miss j :: vs)
      = (if j = i then 1 else 0) + refCount i vs := by
  simp only [refCount, hitCount, missCount, List.countP_cons]
  by_cases h : j = i
  · simp [h]
    omega
  · simp [h]

/-- Helper: the sweep's effect on each flag is accounted for exactly by
the Misses it emits. -/
lemma sweepFrom_flag (cfg : MatchConfig) (now : Int) :
    ∀ (l : List Slot) (i0 k : Nat),
      flag (sweepFrom cfg now i0 l).1 k
        = flag l k + refCount (i0 + k) (sweepFrom cfg now i0 l).2 := by
  intro l
  induction l with
  | nil => intro i0 k; simp [sweepFrom, flag, refCount_nil]
  | cons s rest ih =>
    intro i0 k
    have hz : ∀ m, m < i0 + 1 → refCount m (sweepFrom cfg now (i0 + 1) rest).2 = 0 :=
      fun m hm => refCount_eq_zero_of_lt _ _ _ (sweepFrom_mem cfg now rest (i0 + 1)) hm
    simp only [sweepFrom]
    split
    · rename_i hc
      have hcons : s.consumed = false := by
        have h1 := (Bool.and_eq_true _ _ |>.mp hc).1
        simpa using h1
      cases k with
      | zero =>
        have h0 : refCount i0 (sweepFrom cfg now (i0 + 1) rest).2 = 0 :=
          hz i0 (by omega)
        simp [flag_cons_zero, hcons, refCount_cons_miss, h0]
      | succ m =>
        have harith : i0 + (m + 1) = (i0 + 1) + m := by omega
        have hne : ¬ (i0 = (i0 + 1) + m) := by omega
        simp only [flag_cons_succ, ih (i0 + 1) m, harith, refCount_cons_miss,
          if_neg hne]
        omega
    · cases k with
      | zero =>
        have h0 : refCount i0 (sweepFrom cfg now (i0 + 1) rest).2 = 0 :=
          hz i0 (by omega)
        simp [flag_cons_zero, h0]
      | succ m =>
        have harith : i0 + (m + 1) = (i0 + 1) + m := by omega
        simp only [flag_cons_succ, ih (i0 + 1) m, harith]

/-- Helper: the sweep emits a Miss for every unconsumed slot whose
tolerance window has fully elapsed. -/
lemma sweepFrom_miss_mem (cfg : MatchConfig) (now : Int) :
    ∀ (l : List Slot) (i0 k : Nat) (s : Slot),
      l[k]? = some s → s.consumed = false → windowHi cfg s.note < now →
      Verdict.miss (i0 + k) ∈ (sweepFrom cfg now i0 l).2 := by
  intro l
  induction l with
  | nil => intro i0 k s h; simp at h
  | cons t rest ih =>
    intro i0 k s hks hcons hw
    cases k with
    | zero =>
      rw [List.getElem?_cons_zero] at hks
      cases hks
      have hc : (!t.consumed && decide (windowHi cfg t.note < now)) = true := by
        simp [hcons, hw]
      simp only [sweepFrom, if_pos hc]
      simp
    | succ m =>
      rw [List.getElem?_cons_succ] at hks
      have hmem := ih (i0 + 1) m s hks hcons hw
      have harith : i0 + (m + 1) = (i0 + 1) + m := by omega
      rw [harith]
      simp only [sweepFrom]
      split
      · exact List.mem_cons_of_mem _ hmem
      · exact hmem

/-- Helper: one serialized Matcher step changes each flag by exactly the
number of Hit/Miss verdicts it emits for that index. -/
lemma matcherStep_flag (cfg : MatchConfig) (slots : List Slot)
    (inp : MatcherInput) (i : Nat) :
    flag (matcherStep cfg slots inp).1 i
      = flag slots i + refCount i (matcherStep cfg slots inp).2 := by
  cases inp with
  | ev e =>
    cases hk : e.kind
    case ev.on =>
      simp only [matcherStep, hk]
      cases hf : findMatch cfg e.pitch e.timestamp slots with
      | none => simp [processOn, hf, refCount_extra]
      | some q =>
        obtain ⟨j, n⟩ := q
        obtain ⟨s, hjs, hnote, hq, _⟩ := findMatch_some cfg e.pitch e.timestamp slots j n hf
        have hcons : s.consumed = false := by
          simp only [qualifies, Bool.and_eq_true] at hq
          simpa using hq.1.1.1
        simp only [processOn, hf]
        by_cases hij : i = j
        · subst hij
          rw [flag_markConsumed_self slots i s hjs, refCount_hit]
          have h0 : flag slots i = 0 := by
            unfold flag
            rw [hjs]
            simp [hcons]
          simp [h0]
        · rw [flag_markConsumed_ne slots j i hij, refCount_hit,
            if_neg (fun h => hij h.symm)]
          omega
    case ev.off => simp [matcherStep, hk, refCount_nil]
  | tick now =>
    simp only [matcherStep, sweep]
    have := sweepFrom_flag cfg now slots 0 i
    simpa using this

/-- Helper: over a whole run, each flag's change is accounted for exactly
by the Hit/Miss verdicts referencing that index. -/
lemma matcherRun_flag (cfg : MatchConfig) :
    ∀ (inputs : List MatcherInput) (slots : List Slot) (i : Nat),
      flag (matcherRun cfg slots inputs).1 i
        = flag slots i + refCount i (matcherRun cfg slots inputs).2 := by
  intro inputs
  induction inputs with
  | nil => intro slots i; simp [matcherRun, refCount_nil]
  | cons inp rest ih =>
    intro slots i
    simp only [matcherRun]
    rw [refCount_append, ih, matcherStep_flag]
    omega

/-- Helper: the running accuracy is non-negative. -/
lemma accuracy_nonneg (c : Counters) : 0 ≤ accuracy c := by
  unfold accuracy
  apply div_nonneg (Nat.cast_nonneg _)
  have h1 : (0 : ℚ) ≤ (c.hits : ℚ) := Nat.cast_nonneg _
  have h2 : (0 : ℚ) ≤ (c.misses : ℚ) := Nat.cast_nonneg _
  have h3 : (0 : ℚ) ≤ (c.extras : ℚ) := Nat.cast_nonneg _
  linarith

/-- Helper: the running accuracy never exceeds one. -/
lemma accuracy_le_one (c : Counters) : accuracy c ≤ 1 := by
  unfold accuracy
  apply div_le_one_of_le₀
  · have h2 : (0 : ℚ) ≤ (c.misses : ℚ) := Nat.cast_nonneg _
    have h3 : (0 : ℚ) ≤ (c.extras : ℚ) := Nat.cast_nonneg _
    linarith
  · have h1 : (0 : ℚ) ≤ (c.hits : ℚ) := Nat.cast_nonneg _
    have h2 : (0 : ℚ) ≤ (c.misses : ℚ) := Nat.cast_nonneg _
    have h3 : (0 : ℚ) ≤ (c.extras : ℚ) := Nat.cast_nonneg _
    linarith

/-! ### Claim theorems for the Matcher -/

/-- C1: over any whole-session stream of incoming note events and sweep
ticks, each ExpectedNote of a freshly built ExpectedSequence receives at
most one Hit verdict. -/
theorem matcher_at_most_one_hit (cfg : MatchConfig) (seq : List ExpectedNote)
    (inputs : List MatcherInput) (i : Nat) :
    hitCount i (matcherRun cfg (buildSlots seq) inputs).2 ≤ 1 := by
  have h := matcherRun_flag cfg inputs (buildSlots seq) i
  rw [flag_buildSlots] at h
  have h2 := flag_le_one (matcherRun cfg (buildSlots seq) inputs).1 i
  simp only [refCount] at h
  omega

/-- C2: processing an incoming `on` event is total — it always yields
exactly one verdict — and whenever no unconsumed ExpectedNote of matching
pitch has a tolerance window containing the event's timestamp, the event
is resolved as Extra with the Matcher state unchanged. -/
theorem matcher_total (cfg : MatchConfig) (slots : List Slot) (e : NoteEvent) :
    (processOn cfg slots e).2.length = 1
    ∧ ((∀ s ∈ slots, qualifies cfg e.pitch e.timestamp s = false) →
        processOn cfg slots e = (slots, [Verdict.extra e])) := by
  constructor
  · unfold processOn
    cases findMatch cfg e.pitch e.timestamp slots <;> simp
  · intro h
    have hn := (findMatch_eq_none cfg e.pitch e.timestamp slots).mpr h
    simp [processOn, hn]

/-- Witness for `matcher_total`: an event of pitch 67 against a sequence
holding only pitch 60 resolves as Extra without touching the state. -/
theorem matcher_total_witness :
    processOn ⟨100, 100⟩ [⟨⟨60, 0⟩, false⟩] ⟨67, 50, EventKind.on, 10, 0⟩
      = ([⟨⟨60, 0⟩, false⟩], [Verdict.extra ⟨67, 50, EventKind.on, 10, 0⟩]) :=
  (matcher_total ⟨100, 100⟩ [⟨⟨60, 0⟩, false⟩] ⟨67, 50, EventKind.on, 10, 0⟩).2
    (by decide)

/-- C3: on a sequence sorted by expected time (ties in score order), when
the Matcher picks a candidate for an incoming `on` event, it deterministically
consumes that candidate and emits its Hit, the candidate qualifies, and
every qualifying candidate has an expected time no earlier than the chosen
one and an index no smaller (FIFO by expected order). -/
theorem matcher_fifo (cfg : MatchConfig) (slots : List Slot) (e : NoteEvent)
    (j : Nat) (n : ExpectedNote)
    (hsorted : slots.Pairwise (fun a b => a.note.expectedTime ≤ b.note.expectedTime))
    (hf : findMatch cfg e.pitch e.timestamp slots = some (j, n)) :
    processOn cfg slots e
      = (markConsumed slots j, [Verdict.hit j (e.timestamp - n.expectedTime)])
    ∧ (∃ s, slots[j]? = some s ∧ s.note = n
        ∧ qualifies cfg e.pitch e.timestamp s = true)
    ∧ ∀ k s', slots[k]? = some s' → qualifies cfg e.pitch e.timestamp s' = true →
        n.expectedTime ≤ s'.note.expectedTime ∧ j ≤ k := by
  obtain ⟨s, hjs, hnote, hq, hmin⟩ := findMatch_some cfg e.pitch e.timestamp slots j n hf
  refine ⟨by simp [processOn, hf], ⟨s, hjs, hnote, hq⟩, ?_⟩
  intro k s' hks hqs
  have hjk : j ≤ k := by
    by_contra hlt
    push_neg at hlt
    have := hmin k hlt s' hks
    rw [hqs] at this
    cases this
  refine ⟨?_, hjk⟩
  obtain ⟨hjlen, hjget⟩ := List.getElem?_eq_some.mp hjs
  obtain ⟨hklen, hkget⟩ := List.getElem?_eq_some.mp hks
  rcases Nat.lt_or_ge j k with hlt | hge
  · have hrel := List.pairwise_iff_get.mp hsorted ⟨j, hjlen⟩ ⟨k, hklen⟩ hlt
    simp only [List.get_eq_getElem, hjget, hkget] at hrel
    rw [← hnote]
    exact hrel
  · have hjk' : j = k := by omega
    subst hjk'
    rw [hjget] at hkget
    rw [← hnote, hkget]

/-- Witness for `matcher_fifo`: two duplicate-pitch notes at time 0; the
incoming (60, on, t=10) consumes the earlier-ordered one (index 0). -/
theorem matcher_fifo_witness :
    processOn ⟨100, 100⟩ [⟨⟨60, 0⟩, false⟩, ⟨⟨60, 0⟩, false⟩]
        ⟨60, 10, EventKind.on, 10, 0⟩
      = (markConsumed [⟨⟨60, 0⟩, false⟩, ⟨⟨60, 0⟩, false⟩] 0,
          [Verdict.hit 0 (10 - 0)]) :=
  (matcher_fifo ⟨100, 100⟩ [⟨⟨60, 0⟩, false⟩, ⟨⟨60, 0⟩, false⟩]
    ⟨60, 10, EventKind.on, 10, 0⟩ 0 ⟨60, 0⟩ (by decide) (by decide)).1

/-- C4: when a session run over a freshly built ExpectedSequence ends with
every note verdicted (the `finished` condition), each ExpectedNote has
received exactly one verdict, and that verdict is a Hit or a Miss (Extra
verdicts reference only note events, never an ExpectedNote); moreover the
sweep emits a Miss for each unconsumed note whose tolerance window has
fully elapsed. -/
theorem matcher_finished (cfg : MatchConfig) (seq : List ExpectedNote)
    (inputs : List MatcherInput)
    (hfin : ∀ i < seq.length, flag (matcherRun cfg (buildSlots seq) inputs).1 i = 1) :
    (∀ i < seq.length,
        hitCount i (matcherRun cfg (buildSlots seq) inputs).2
          + missCount i (matcherRun cfg (buildSlots seq) inputs).2 = 1)
    ∧ ∀ (now : Int) (slots : List Slot) (i : Nat) (s : Slot),
        slots[i]? = some s → s.consumed = false → windowHi cfg s.note < now →
        Verdict.miss i ∈ (sweep cfg now slots).2 := by
  constructor
  · intro i hi
    have h := matcherRun_flag cfg inputs (buildSlots seq) i
    rw [flag_buildSlots, hfin i hi] at h
    simp only [refCount] at h
    omega
  · intro now slots i s hs hc hw
    have := sweepFrom_miss_mem cfg now slots 0 i s hs hc hw
    simpa using this

/-- Witness for `matcher_finished`: a one-note sequence swept at t=500
(window long elapsed) finishes with exactly one verdict for note 0. -/
theorem matcher_finished_witness :
    hitCount 0 (matcherRun ⟨100, 100⟩ (buildSlots [⟨60, 0⟩]) [MatcherInput.tick 500]).2
      + missCount 0 (matcherRun ⟨100, 100⟩ (buildSlots [⟨60, 0⟩]) [MatcherInput.tick 500]).2
      = 1 :=
  (matcher_finished ⟨100, 100⟩ [⟨60, 0⟩] [MatcherInput.tick 500] (by decide)).1
    0 (by decide)

/-- C5: after any prefix of the verdict stream, the Feedback Aggregator's
running accuracy equals hits / (hits + misses + extras) computed from the
counters, lies in [0, 1], and recomputing it from equal counters yields the
same value. -/
theorem aggregator_accuracy (vs : List Verdict) :
    accuracy (countersOf vs)
      = ((countersOf vs).hits : ℚ)
        / (((countersOf vs).hits : ℚ) + ((countersOf vs).misses : ℚ)
            + ((countersOf vs).extras : ℚ))
    ∧ 0 ≤ accuracy (countersOf vs)
    ∧ accuracy (countersOf vs) ≤ 1
    ∧ ∀ c' : Counters, c'.hits = (countersOf vs).hits →
        c'.misses = (countersOf vs).misses → c'.extras = (countersOf vs).extras →
        accuracy c' = accuracy (countersOf vs) := by
  refine ⟨rfl, accuracy_nonneg _, accuracy_le_one _, ?_⟩
  intro c' h1 h2 h3
  unfold accuracy
  rw [h1, h2, h3]

/-- Witness for `aggregator_accuracy` at the verdict prefix
`[Hit 0 +5, Extra]` and the counters `⟨1, 0, 1⟩`. -/
theorem aggregator_accuracy_witness :
    accuracy (⟨1, 0, 1⟩ : Counters)
      = accuracy (countersOf [Verdict.hit 0 5, Verdict.extra ⟨60, 10, EventKind.on, 3, 0⟩]) :=
  (aggregator_accuracy [Verdict.hit 0 5, Verdict.extra ⟨60, 10, EventKind.on, 3, 0⟩]).2.2.2
    ⟨1, 0, 1⟩ rfl rfl rfl

/-- C6: every successful Session Controller step changes the status only
along `idle→running`, `running→paused`, `paused→running`,
`running→finished`, `paused→finished`; `idle→running` succeeds exactly when
a built ExpectedSequence exists and fails with `NotReady` otherwise. -/
theorem sessionStep_transitions :
    (∀ (hasSeq : Bool) (s s' : Status) (c : SessionCmd),
        sessionStep hasSeq s c = Except.ok s' →
        (s = Status.idle ∧ s' = Status.running) ∨
        (s = Status.running ∧ s' = Status.paused) ∨
        (s = Status.paused ∧ s' = Status.running) ∨
        (s = Status.running ∧ s' = Status.finished) ∨
        (s = Status.paused ∧ s' = Status.finished))
    ∧ sessionStep false Status.idle SessionCmd.start = Except.error SessionError.notReady
    ∧ sessionStep true Status.idle SessionCmd.start = Except.ok Status.running := by
  refine ⟨?_, rfl, rfl⟩
  intro hasSeq s s' c h
  cases s <;> cases c <;> cases hasSeq <;>
    simp only [sessionStep, if_true, if_false, Bool.false_eq_true] at h <;>
    (cases h <;> decide)

/-- Witness for `sessionStep_transitions`: the step
`running --pause--> paused` lands in the allowed transition set. -/
theorem sessionStep_transitions_witness :
    (Status.running = Status.idle ∧ Status.paused = Status.running) ∨
    (Status.running = Status.running ∧ Status.paused = Status.paused) ∨
    (Status.running = Status.paused ∧ Status.paused = Status.running) ∨
    (Status.running = Status.running ∧ Status.paused = Status.finished) ∨
    (Status.running = Status.paused ∧ Status.paused = Status.finished) :=
  sessionStep_transitions.1 true Status.running Status.paused SessionCmd.pause rfl

/-- C7: a raw device message that is neither a recognized note-on (status
high nibble 9) nor a recognized note-off (status high nibble 8) — control
changes, clock, sysex — produces no NoteEvent and no error, and appending
it to any message stream leaves the Normalizer's output stream
unchanged. -/
theorem normalizer_drops_unrecognized (src : Nat) (m : RawMessage)
    (h9 : m.status / 16 ≠ 9) (h8 : m.status / 16 ≠ 8) :
    normalize src m = none
      ∧ ∀ ms : List RawMessage,
          normalizeStream src (ms ++ [m]) = normalizeStream src ms := by
  have hn : normalize src m = none := by
    unfold normalize
    simp [h9, h8]
  refine ⟨hn, fun ms => ?_⟩
  simp [normalizeStream, List.filterMap_append, hn]

/-- Witness for `normalizer_drops_unrecognized` at a control-change message
(status byte 0xB0 = 176) appended after a recognized note-on message. -/
theorem normalizer_drops_unrecognized_witness :
    normalize 0 ⟨176, 7, 100, 5⟩ = none
      ∧ normalizeStream 0 ([⟨144, 60, 10, 0⟩] ++ [⟨176, 7, 100, 5⟩])
          = normalizeStream 0 [⟨144, 60, 10, 0⟩] :=
  ⟨(normalizer_drops_unrecognized 0 ⟨176, 7, 100, 5⟩ (by decide) (by decide)).1,
   (normalizer_drops_unrecognized 0 ⟨176, 7, 100, 5⟩ (by decide) (by decide)).2
     [⟨144, 60, 10, 0⟩]⟩

/-- C8 counterexample: `class MIDIHandler` in the source does not have
exactly two methods — `methodNames` lists its three methods
(`initialize`, `setupInputs`, `handleMIDIMessage`). -/
theorem midiHandler_not_two_methods : ¬ MIDIHandler.methodNames.length = 2 := by
  decide

/-- C8 (amended): the MIDI input handling in the source is a class stub
with exactly three methods, whose message handler does nothing, and the
sheet-music rendering is a separate stub whose render method does
nothing. -/
theorem midiHandler_three_method_stub :
    MIDIHandler.methodNames.length = 3
    ∧ (∀ m : RawMessage, MIDIHandler.handleMIDIMessage m = ())
    ∧ SheetRenderer.methodNames.length = 2
    ∧ (∀ ns : List ExpectedNote, SheetRenderer.renderSheet ns = ()) :=
  ⟨rfl, fun _ => rfl, rfl, fun _ => rfl⟩

/-- C9: `MIDIHandler.initialize` errors with message
`'WebMIDI not supported'` exactly when `navigator.requestMIDIAccess` is
absent; when present it succeeds and registers `handleMIDIMessage` on
every MIDI input of the returned access object. -/
theorem midiHandler_initialize_spec :
    (∀ nav : Option MIDIAccess,
        MIDIHandler.initializeHandler nav = Except.error "WebMIDI not supported"
          ↔ nav = none)
    ∧ (∀ midi : MIDIAccess,
        MIDIHandler.initializeHandler (some midi)
          = Except.ok (MIDIHandler.setupInputs midi))
    ∧ (∀ midi : MIDIAccess,
        (MIDIHandler.setupInputs midi).inputs.length = midi.inputs.length)
    ∧ (∀ midi : MIDIAccess, ∀ i ∈ (MIDIHandler.setupInputs midi).inputs,
        i.onmidimessage = some HandlerRef.handleMIDIMessage) := by
  refine ⟨?_, fun _ => rfl, fun midi => ?_, fun midi i hi => ?_⟩
  · intro nav
    cases nav <;> simp [MIDIHandler.initializeHandler]
  · simp [MIDIHandler.setupInputs]
  · simp only [MIDIHandler.setupInputs, List.mem_map] at hi
    obtain ⟨j, _, rfl⟩ := hi
    rfl

/-- Witness for `midiHandler_initialize_spec` on a one-input MIDIAccess:
the absent-API case errors, and the registered input carries the
handler. -/
theorem midiHandler_initialize_spec_witness :
    (MIDIHandler.initializeHandler none = Except.error "WebMIDI not supported"
      ↔ (none : Option MIDIAccess) = none)
    ∧ ({ id := 1, onmidimessage := some HandlerRef.handleMIDIMessage } : MIDIInput).onmidimessage
        = some HandlerRef.handleMIDIMessage :=
  ⟨midiHandler_initialize_spec.1 none,
   midiHandler_initialize_spec.2.2.2 ⟨[⟨1, none⟩]⟩
     ⟨1, some HandlerRef.handleMIDIMessage⟩ (by decide)⟩

/-- C10: each game-store action touches only its designated field —
`incrementScore` adds exactly 1 to `score` and preserves `currentNote` and
`isPlaying`; `setNote note` sets `currentNote` and preserves `score` and
`isPlaying`; iterating `incrementScore` from the initial state makes
`score` an unbounded non-negative counter (after `k` increments it equals
`k`, not a value confined to [0, 1]). -/
theorem gameStore_frame (Note : Type) (s : GameState Note) (n : Note) (k : Nat) :
    (incrementScore s).score = s.score + 1
    ∧ (incrementScore s).currentNote = s.currentNote
    ∧ (incrementScore s).isPlaying = s.isPlaying
    ∧ (setNote n s).currentNote = some n
    ∧ (setNote n s).score = s.score
    ∧ (setNote n s).isPlaying = s.isPlaying
    ∧ (incrementScore^[k] (initialGameState Note)).score = k := by
  refine ⟨rfl, rfl, rfl, rfl, rfl, rfl, ?_⟩
  induction k with
  | zero => rfl
  | succ k ih =>
    rw [Function.iterate_succ_apply']
    simp [incrementScore, ih]

end Popiano

